import Mathlib

/-!
# Feed screen and video cell of the mobile client

A shallow embedding of `mobile/src/screens/FeedScreen.js` and
`mobile/src/components/VideoItem.js`.

* React state (`useState`) is an explicit record that every handler maps to
  a new record.
* An effect with a dependency list (`useEffect(f, [isActive])`) is a function
  of the cell's memoised dependency: it runs on the first render and on every
  later render whose `isActive` differs from the memoised one.
* Calls on the player (`playAsync`, `pauseAsync`), console output and alert
  dialogs are returned as data.
-/

namespace NeoSocial

/-! ## JavaScript values held by the optional display fields -/

/-- The JavaScript values an entry field can hold.  Numbers are restricted to
integers (like and comment counts). -/
inductive JsValue where
  | undefined : JsValue
  | null : JsValue
  | bool (b : Bool) : JsValue
  | number (n : Int) : JsValue
  | string (s : String) : JsValue
deriving DecidableEq, Repr

/-- JavaScript truthiness (`ToBoolean`) on `JsValue`. -/
def JsValue.truthy : JsValue → Bool
  | .undefined => false
  | .null => false
  | .bool b => b
  | .number n => n != 0
  | .string s => s != ""

/-- The JavaScript operator `a || b`. -/
def JsValue.or (a b : JsValue) : JsValue :=
  if a.truthy then a else b

/-- A field is present when the object carries a value for it. -/
def JsValue.present : JsValue → Bool
  | .undefined => false
  | .null => false
  | _ => true

/-! ## Feed controller (`FeedScreen.js`) -/

/-- One object of the feed, with the fields the client reads. -/
structure VideoEntry where
  id : String
  video_url : String
  username : JsValue
  description : JsValue
  likes : JsValue
  comments : JsValue
deriving DecidableEq, Repr

/-- The two `useState` cells of `FeedScreen`. -/
structure FeedState where
  videos : List VideoEntry
  activeVideoIndex : Nat
deriving DecidableEq, Repr

/-- The state on mount: `useState([])` and `useState(0)`. -/
def FeedState.init : FeedState := ⟨[], 0⟩

/-- The constant `mockData` of `fetchVideos`. -/
def mockData : List VideoEntry :=
  [ ⟨"1",
      "https://assets.mixkit.co/videos/preview/mixkit-waves-in-the-water-1164-large.mp4",
      .string "ocean_vibe", .string "Relaxing waves 🌊 #nature",
      .string "1.2M", .string "4K"⟩,
    ⟨"2",
      "https://assets.mixkit.co/videos/preview/mixkit-tree-with-yellow-flowers-1173-large.mp4",
      .string "nature_lover", .string "Spring is here! 🌸 #flowers",
      .string "890K", .string "2K"⟩ ]

/-- The state setter `setVideos`. -/
def setVideos (data : List VideoEntry) (s : FeedState) : FeedState :=
  ⟨data, s.activeVideoIndex⟩

/-- The state setter `setActiveVideoIndex`. -/
def setActiveVideoIndex (i : Nat) (s : FeedState) : FeedState :=
  ⟨s.videos, i⟩

/-- The mount effect `fetchVideos`: `setVideos(mockData)`. -/
def fetchVideos (s : FeedState) : FeedState :=
  setVideos mockData s

/-- An element of `viewableItems`; the handler reads its `index` only, which
for a row of the list is a natural number. -/
structure ViewToken where
  index : Nat
deriving DecidableEq, Repr

/-- The handler `onViewableItemsChanged`.  The argument is the `viewableItems`
property of the callback's argument, `none` when it is missing. -/
def onViewableItemsChanged (viewableItems : Option (List ViewToken))
    (s : FeedState) : FeedState :=
  match viewableItems with
  | some (t :: _) => setActiveVideoIndex t.index s
  | _ => s

/-- The `isActive` property `renderItem` gives the cell of row `index`:
`activeVideoIndex === index`. -/
def isActive (s : FeedState) (index : Nat) : Bool :=
  s.activeVideoIndex == index

/-- The `isActive` flags of the rendered rows, in row order. -/
def renderFlags (s : FeedState) : List Bool :=
  (List.range s.videos.length).map (isActive s)

/-- The events that change the state of `FeedScreen`: the mount effect and a
call of `onViewableItemsChanged` by the list. -/
inductive FeedEvent where
  | load : FeedEvent
  | viewable (viewableItems : Option (List ViewToken)) : FeedEvent
deriving DecidableEq, Repr

/-- The state after one event. -/
def FeedState.step (e : FeedEvent) (s : FeedState) : FeedState :=
  match e with
  | .load => fetchVideos s
  | .viewable items => onViewableItemsChanged items s

/-- The state after a sequence of events, oldest first. -/
def FeedState.run : List FeedEvent → FeedState → FeedState
  | [], s => s
  | e :: es, s => FeedState.run es (FeedState.step e s)

/-- Every element of `viewableItems` is a row of the list being displayed. -/
def tokensInRange (viewableItems : Option (List ViewToken)) (s : FeedState) : Bool :=
  match viewableItems with
  | some ts => ts.all (fun t => decide (t.index < s.videos.length))
  | none => true

/-- A sequence of events in which every visibility event reports rows of the
list displayed at that moment. -/
def rowsInRange : List FeedEvent → FeedState → Bool
  | [], _ => true
  | .load :: es, s => rowsInRange es (FeedState.step .load s)
  | .viewable items :: es, s =>
    tokensInRange items s && rowsInRange es (FeedState.step (.viewable items) s)

/-- The states the screen goes through: the empty feed with active index 0,
or the mock feed with an active index that is one of its rows. -/
def FeedState.inv (s : FeedState) : Prop :=
  (s.videos = [] ∧ s.activeVideoIndex = 0)
  ∨ (s.videos = mockData ∧ s.activeVideoIndex < mockData.length)

/-! ## Video cell (`VideoItem.js`) -/

/-- The calls the effect makes on the player behind `videoRef`. -/
inductive Command where
  | playAsync : Command
  | pauseAsync : Command
deriving DecidableEq, Repr

/-- The part of the playback status that says whether the media is loaded.
The initial status is the empty object, whose `isLoaded` reads as false. -/
structure PlaybackStatus where
  isLoaded : Bool
deriving DecidableEq, Repr

/-- The state of one mounted `VideoItem`.

* `videoRef`: whether `videoRef.current` holds the player;
* `status`: the `useState` cell written by `onPlaybackStatusUpdate`;
* `deps`: the `isActive` the effect last ran with, `none` before its first
  run. -/
structure CellState where
  videoRef : Bool
  status : PlaybackStatus
  deps : Option Bool
deriving DecidableEq, Repr

/-- A cell before its first commit: `useRef(null)` and the empty status. -/
def CellState.init : CellState := ⟨false, ⟨false⟩, none⟩

/-- The body of the effect: `videoRef.current?.playAsync()` when `isActive`,
`videoRef.current?.pauseAsync()` otherwise. -/
def effectBody (c : CellState) (active : Bool) : List Command :=
  if active then
    (if c.videoRef then [Command.playAsync] else [])
  else
    (if c.videoRef then [Command.pauseAsync] else [])

/-- A render of the cell with property `isActive`, followed by its effect,
which runs when `isActive` is not the memoised dependency. -/
def render (active : Bool) (c : CellState) : CellState × List Command :=
  if c.deps = some active then (c, [])
  else (⟨c.videoRef, c.status, some active⟩, effectBody c active)

/-- The first commit of a cell: the player is attached to `videoRef`, then
the effect runs. -/
def mount (active : Bool) : CellState × List Command :=
  render active ⟨true, CellState.init.status, CellState.init.deps⟩

/-- The callback `onPlaybackStatusUpdate`: `setStatus(() => status)`, and the
render that follows with the `isActive` the cell already has. -/
def onPlaybackStatusUpdate (st : PlaybackStatus) (c : CellState) :
    CellState × List Command :=
  match c.deps with
  | some active => render active ⟨c.videoRef, st, c.deps⟩
  | none => (⟨c.videoRef, st, c.deps⟩, [])

/-- What happens to a mounted cell: its parent renders it with a value of
`isActive`, or the player reports a status. -/
inductive CellEvent where
  | props (active : Bool) : CellEvent
  | statusUpdate (st : PlaybackStatus) : CellEvent
deriving DecidableEq, Repr

/-- One event on a cell: the new state and the commands issued. -/
def CellState.step (e : CellEvent) (c : CellState) : CellState × List Command :=
  match e with
  | .props active => render active c
  | .statusUpdate st => onPlaybackStatusUpdate st c

/-- A sequence of events on a cell, oldest first: the final state and all
commands issued, in order. -/
def CellState.run : List CellEvent → CellState → CellState × List Command
  | [], c => (c, [])
  | e :: es, c =>
    let r := CellState.step e c
    let rs := CellState.run es r.1
    (rs.1, r.2 ++ rs.2)

/-! ## The screen: the feed state and one cell per row -/

/-- The feed state with the cells of its rows, the cell of row `i` at
position `i`.  Every row of the list has a mounted cell: the window in which
`FlatList` keeps rows mounted is taken to cover the whole feed, as it does
for the two mock entries. -/
structure Screen where
  feed : FeedState
  cells : List CellState
deriving DecidableEq, Repr

/-- A commit of rows `i, i+1, ..., i+n-1` under feed state `s`: a row with a
cell renders it, a row without one mounts it, and cells past the last row
are dropped.  Commands carry the row of the cell that issued them. -/
def commitRows (s : FeedState) : Nat → Nat → List CellState →
    List CellState × List (Nat × Command)
  | _, 0, _ => ([], [])
  | i, n + 1, [] =>
    let r := mount (isActive s i)
    let rs := commitRows s (i + 1) n []
    (r.1 :: rs.1, r.2.map (Prod.mk i) ++ rs.2)
  | i, n + 1, c :: cs =>
    let r := render (isActive s i) c
    let rs := commitRows s (i + 1) n cs
    (r.1 :: rs.1, r.2.map (Prod.mk i) ++ rs.2)

/-- A feed event on the screen: the handler, then the commit of all rows. -/
def Screen.step (e : FeedEvent) (scr : Screen) : Screen × List (Nat × Command) :=
  let s := FeedState.step e scr.feed
  let r := commitRows s 0 s.videos.length scr.cells
  (⟨s, r.1⟩, r.2)

/-- Cells `cs` are those of rows `i, i+1, ...` after a commit under `s`: each
has its player attached and its effect has run with the row's `isActive`. -/
def settledFrom (s : FeedState) : Nat → List CellState → Bool
  | _, [] => true
  | i, c :: cs =>
    c.videoRef && decide (c.deps = some (isActive s i)) && settledFrom s (i + 1) cs

/-- A screen between events: one cell per row, all committed. -/
def Screen.settled (scr : Screen) : Bool :=
  decide (scr.cells.length = scr.feed.videos.length) && settledFrom scr.feed 0 scr.cells

/-- The screen on mount, before the first commit of any row. -/
def Screen.init : Screen := ⟨FeedState.init, []⟩

/-- A sequence of feed events on the screen, oldest first: the final screen
and all commands issued, in order. -/
def Screen.run : List FeedEvent → Screen → Screen × List (Nat × Command)
  | [], scr => (scr, [])
  | e :: es, scr =>
    let r := Screen.step e scr
    let rs := Screen.run es r.1
    (rs.1, r.2 ++ rs.2)

/-! ## Remix dialog (`handleRemixPress`) -/

/-- The effects of the remix flow that are visible outside the component: a
line on the console, or a `POST /remix` request carrying `videoId` and
`prompt`. -/
inductive Effect where
  | consoleLog (line : String) : Effect
  | remixRequest (videoId : String) (prompt : String) : Effect
deriving DecidableEq, Repr

/-- A button of an alert dialog. -/
structure AlertButton where
  text : String
  style : Option String
  onPress : Option (String → List Effect)

/-- The arguments of `Alert.prompt`. -/
structure AlertPrompt where
  title : String
  message : String
  buttons : List AlertButton
  type : String

/-- The dialog `handleRemixPress(item)` opens. -/
def handleRemixPress (item : VideoEntry) : AlertPrompt :=
  ⟨"AI Remix ✨",
   "Enter a prompt to transform this video:",
   [ ⟨"Cancel", some "cancel", none⟩,
     ⟨"Remix!", none, some (fun prompt =>
        [Effect.consoleLog ("Remixing video " ++ item.id ++ " with prompt: " ++ prompt)])⟩ ],
   "plain-text"⟩

/-- The user presses the button labelled `label` with `input` in the text
field: the button's `onPress`, when it has one, is called with the input. -/
def AlertPrompt.press (a : AlertPrompt) (label input : String) : List Effect :=
  match a.buttons.find? (fun b => b.text == label) with
  | some b =>
    match b.onPress with
    | some f => f input
    | none => []
  | none => []

/-- The remix flow on screen state `s`: the cell of `item` calls
`onRemixPress(item)`, the dialog opens, and the user presses `label`. -/
def remixFlow (s : FeedState) (item : VideoEntry) (label input : String) :
    FeedState × List Effect :=
  (s, (handleRemixPress item).press label input)

/-! ## Labels of the cell -/

/-- The label under the heart icon: `item.likes || '12K'`. -/
def likesLabel (item : VideoEntry) : JsValue :=
  item.likes.or (.string "12K")

/-- The label under the comment icon: `item.comments || '450'`. -/
def commentsLabel (item : VideoEntry) : JsValue :=
  item.comments.or (.string "450")

/-- The user name shown after the at sign: `item.username || 'user_gen'`. -/
def usernameLabel (item : VideoEntry) : JsValue :=
  item.username.or (.string "user_gen")

/-- The description line: `item.description || 'AI Video Magic #viral'`. -/
def descriptionLabel (item : VideoEntry) : JsValue :=
  item.description.or (.string "AI Video Magic #viral")

/-! ## Theorems: the visibility handler -/

/-- C1: for every feed state, `onViewableItemsChanged` sets the active index
to the index of the first viewable item when there is one and leaves the
state as it is when the sequence is empty or missing; the entries are the
same in every case, and a single item of index `k` gives active index `k`. -/
theorem onViewableItemsChanged_spec (s : FeedState) :
    (∀ t ts, (onViewableItemsChanged (some (t :: ts)) s).activeVideoIndex = t.index)
    ∧ onViewableItemsChanged (some []) s = s
    ∧ onViewableItemsChanged none s = s
    ∧ (∀ items, (onViewableItemsChanged items s).videos = s.videos)
    ∧ (∀ k, (onViewableItemsChanged (some [⟨k⟩]) s).activeVideoIndex = k) := by
  refine ⟨fun _ _ => rfl, rfl, rfl, ?_, fun _ => rfl⟩
  intro items
  rcases items with _ | _ | ⟨t, ts⟩ <;> rfl

/-- C2: for every non-empty sequence of viewable items, delivered as the list
delivers them, in row order with the topmost row first, the active index
becomes the topmost row, which is the lowest index occurring in the
sequence. -/
theorem onViewableItemsChanged_first_of_sorted (s : FeedState) (items : List ViewToken)
    (hne : items ≠ [])
    (hsorted : (items.map ViewToken.index).Pairwise (fun a b => a ≤ b)) :
    (onViewableItemsChanged (some items) s).activeVideoIndex ∈ items.map ViewToken.index
    ∧ (items.map ViewToken.index).head? = some (onViewableItemsChanged (some items) s).activeVideoIndex
    ∧ ∀ t ∈ items, (onViewableItemsChanged (some items) s).activeVideoIndex ≤ t.index := by
  cases items with
  | nil => exact absurd rfl hne
  | cons t ts =>
    refine ⟨by simp [onViewableItemsChanged, setActiveVideoIndex], rfl, ?_⟩
    intro u hu
    simp only [onViewableItemsChanged, setActiveVideoIndex]
    rcases List.mem_cons.mp hu with rfl | hu
    · exact Nat.le_refl _
    · simp only [List.map_cons, List.pairwise_cons] at hsorted
      exact hsorted.1 u.index (List.mem_map_of_mem _ hu)

/-- C2 at a concrete input: the two mock entries with row 1 active, and rows
0 and 1 both visible. -/
theorem onViewableItemsChanged_first_of_sorted_witness :
    (onViewableItemsChanged (some [⟨0⟩, ⟨1⟩])
        (FeedState.run [.load, .viewable (some [⟨1⟩])] FeedState.init)).activeVideoIndex
        ∈ ([⟨0⟩, ⟨1⟩] : List ViewToken).map ViewToken.index
    ∧ (([⟨0⟩, ⟨1⟩] : List ViewToken).map ViewToken.index).head?
        = some (onViewableItemsChanged (some [⟨0⟩, ⟨1⟩])
            (FeedState.run [.load, .viewable (some [⟨1⟩])] FeedState.init)).activeVideoIndex
    ∧ ∀ t ∈ ([⟨0⟩, ⟨1⟩] : List ViewToken),
        (onViewableItemsChanged (some [⟨0⟩, ⟨1⟩])
          (FeedState.run [.load, .viewable (some [⟨1⟩])] FeedState.init)).activeVideoIndex
          ≤ t.index :=
  onViewableItemsChanged_first_of_sorted
    (FeedState.run [.load, .viewable (some [⟨1⟩])] FeedState.init) [⟨0⟩, ⟨1⟩] (by simp)
    (by simp [ViewToken.index])

/-! ## Theorems: the range of the active index -/

/-- Among rows `0, ..., n-1` the number of rows whose `isActive` is true is
one when the active index is below `n`, and zero otherwise. -/
theorem count_isActive_range (s : FeedState) (n : Nat) :
    (((List.range n).map (isActive s)).count true)
      = if s.activeVideoIndex < n then 1 else 0 := by
  induction n with
  | zero => simp
  | succ n ih =>
    rw [List.range_succ, List.map_append, List.count_append, ih]
    by_cases h1 : s.activeVideoIndex < n
    · have h2 : s.activeVideoIndex ≠ n := by omega
      have h3 : s.activeVideoIndex < n + 1 := by omega
      simp [isActive, h1, h2, h3]
    · by_cases h2 : s.activeVideoIndex = n
      · simp [isActive, h2]
      · have h3 : ¬ s.activeVideoIndex < n + 1 := by omega
        simp [isActive, h1, h2, h3]

theorem FeedState.inv_init : FeedState.init.inv :=
  Or.inl ⟨rfl, rfl⟩

theorem FeedState.inv_load (s : FeedState) (h : s.inv) : (FeedState.step .load s).inv := by
  rcases h with ⟨_, h0⟩ | ⟨_, h1⟩
  · exact Or.inr ⟨rfl, by simp [FeedState.step, fetchVideos, setVideos, h0, mockData]⟩
  · exact Or.inr ⟨rfl, h1⟩

theorem FeedState.inv_viewable (s : FeedState) (items : Option (List ViewToken))
    (h : s.inv) (hr : tokensInRange items s = true) :
    (FeedState.step (.viewable items) s).inv := by
  rcases items with _ | _ | ⟨t, ts⟩
  · exact h
  · exact h
  · have ht : t.index < s.videos.length := by
      have hr2 := hr
      simp only [tokensInRange, List.all_cons, Bool.and_eq_true, decide_eq_true_eq] at hr2
      exact hr2.1
    rcases h with ⟨hv, _⟩ | ⟨hv, _⟩
    · rw [hv] at ht
      exact absurd ht (by simp)
    · refine Or.inr ⟨hv, ?_⟩
      rw [hv] at ht
      exact ht

theorem FeedState.inv_run (evs : List FeedEvent) :
    ∀ s : FeedState, s.inv → rowsInRange evs s = true → (FeedState.run evs s).inv := by
  induction evs with
  | nil => intro s h _; exact h
  | cons e es ih =>
    intro s h hr
    cases e with
    | load =>
      exact ih _ (FeedState.inv_load s h) (by simpa [rowsInRange] using hr)
    | viewable items =>
      have hr2 : tokensInRange items s = true ∧
          rowsInRange es (FeedState.step (.viewable items) s) = true := by
        simpa [rowsInRange] using hr
      exact ih _ (FeedState.inv_viewable s items h hr2.1) hr2.2

/-! ## Theorems: the feed load -/

/-- Visibility events leave the entries as they are. -/
theorem FeedState.run_viewable_videos (vs : List (Option (List ViewToken))) :
    ∀ s : FeedState, (FeedState.run (vs.map FeedEvent.viewable) s).videos = s.videos := by
  induction vs with
  | nil => intro s; rfl
  | cons v vs ih =>
    intro s
    simp only [List.map_cons, FeedState.run, FeedState.step]
    rw [ih]
    rcases v with _ | _ | ⟨t, ts⟩ <;> rfl

/-- Before the load the feed is empty and the active index is 0, whatever
visibility events the list has sent for its rows. -/
theorem FeedState.run_viewable_init (vs : List (Option (List ViewToken)))
    (hrows : rowsInRange (vs.map FeedEvent.viewable) FeedState.init = true) :
    FeedState.run (vs.map FeedEvent.viewable) FeedState.init = FeedState.init := by
  have hv := FeedState.run_viewable_videos vs FeedState.init
  have hinv := FeedState.inv_run (vs.map FeedEvent.viewable) FeedState.init
    FeedState.inv_init hrows
  rcases hinv with ⟨h1, h2⟩ | ⟨h1, _⟩
  · cases hrun : FeedState.run (vs.map FeedEvent.viewable) FeedState.init with
    | mk videos active =>
      rw [hrun] at h1 h2
      simp only at h1 h2
      rw [h1, h2]
      rfl
  · rw [hv] at h1
    exact absurd h1 (by decide)

/-- C4: for every feed state the load on mount can find, the initial state
after any visibility events of the still empty list, the load replaces the
entries entirely with the loaded sequence, the two mock entries, and the
active index is 0 afterwards, the loaded sequence not being empty.  The
entries are replaced whatever the prior state is; and had the setter been
given an empty sequence, no row would be rendered and so none active. -/
theorem fetchVideos_on_mount (vs : List (Option (List ViewToken)))
    (hrows : rowsInRange (vs.map FeedEvent.viewable) FeedState.init = true) :
    (fetchVideos (FeedState.run (vs.map FeedEvent.viewable) FeedState.init)).videos = mockData
    ∧ mockData ≠ []
    ∧ (fetchVideos (FeedState.run (vs.map FeedEvent.viewable) FeedState.init)).activeVideoIndex
        = 0
    ∧ (∀ s : FeedState, (fetchVideos s).videos = mockData)
    ∧ (∀ data : List VideoEntry,
        (setVideos data
            (FeedState.run (vs.map FeedEvent.viewable) FeedState.init)).videos = data
        ∧ (data ≠ [] → (setVideos data
            (FeedState.run (vs.map FeedEvent.viewable) FeedState.init)).activeVideoIndex = 0)
        ∧ (data = [] → renderFlags (setVideos data
            (FeedState.run (vs.map FeedEvent.viewable) FeedState.init)) = [])) := by
  rw [FeedState.run_viewable_init vs hrows]
  refine ⟨rfl, by decide, rfl, fun _ => rfl, fun data => ⟨rfl, fun _ => rfl, ?_⟩⟩
  intro h
  subst h
  rfl

/-- C4 at a concrete input: the load on mount after the list has reported an
empty and then a missing sequence of viewable items. -/
theorem fetchVideos_on_mount_witness :
    (fetchVideos (FeedState.run
        (([some [], none] : List (Option (List ViewToken))).map FeedEvent.viewable)
        FeedState.init)).videos = mockData
    ∧ (fetchVideos (FeedState.run
        (([some [], none] : List (Option (List ViewToken))).map FeedEvent.viewable)
        FeedState.init)).activeVideoIndex = 0 :=
  have h := fetchVideos_on_mount [some [], none] (by decide)
  ⟨h.1, h.2.2.1⟩

/-! ## Theorems: the range of the active index, continued -/

/-- C3: in every state reached from the initial state by feed loads and
visibility events, which report rows of the list displayed, if the entries
are not empty then the active index is below their number and exactly one
rendered cell receives `isActive = true`. -/
theorem activeIndex_in_range (evs : List FeedEvent)
    (hrows : rowsInRange evs FeedState.init = true)
    (hne : (FeedState.run evs FeedState.init).videos ≠ []) :
    (FeedState.run evs FeedState.init).activeVideoIndex
        < (FeedState.run evs FeedState.init).videos.length
    ∧ (renderFlags (FeedState.run evs FeedState.init)).count true = 1 := by
  have hinv := FeedState.inv_run evs FeedState.init FeedState.inv_init hrows
  have hlt : (FeedState.run evs FeedState.init).activeVideoIndex
      < (FeedState.run evs FeedState.init).videos.length := by
    rcases hinv with ⟨hv, _⟩ | ⟨hv, ha⟩
    · exact absurd hv hne
    · rw [hv]; exact ha
  refine ⟨hlt, ?_⟩
  rw [renderFlags, count_isActive_range, if_pos hlt]

/-- C3 at a concrete input: the load, then rows 1 and 0 in turn. -/
theorem activeIndex_in_range_witness :
    (FeedState.run [.load, .viewable (some [⟨1⟩]), .viewable (some [⟨0⟩, ⟨1⟩])]
        FeedState.init).activeVideoIndex
      < (FeedState.run [.load, .viewable (some [⟨1⟩]), .viewable (some [⟨0⟩, ⟨1⟩])]
        FeedState.init).videos.length
    ∧ (renderFlags (FeedState.run [.load, .viewable (some [⟨1⟩]), .viewable (some [⟨0⟩, ⟨1⟩])]
        FeedState.init)).count true = 1 :=
  activeIndex_in_range [.load, .viewable (some [⟨1⟩]), .viewable (some [⟨0⟩, ⟨1⟩])]
    (by decide) (by decide)

/-! ## Theorems: the labels of the cell -/

/-- The values that JavaScript treats as false. -/
theorem JsValue.truthy_eq_false_iff (v : JsValue) :
    v.truthy = false ↔
      (v = .undefined ∨ v = .null ∨ v = .bool false ∨ v = .number 0 ∨ v = .string "") := by
  cases v with
  | undefined => simp [JsValue.truthy]
  | null => simp [JsValue.truthy]
  | bool b => cases b <;> simp [JsValue.truthy]
  | number n => simp [JsValue.truthy]
  | string str => simp [JsValue.truthy]

/-- C9, counterexample: an entry whose `likes` is the number 0 has the field
present, and the cell shows the fallback "12K" in place of it. -/
theorem likesLabel_zero_replaced :
    ¬ (∀ item : VideoEntry, item.likes.present = true → likesLabel item = item.likes) := by
  intro h
  have h1 := h ⟨"3", "https://example.org/v.mp4", .undefined, .undefined, .number 0, .undefined⟩ rfl
  exact absurd h1 (by decide)

/-- C9, amended: for every entry and each of the fields username,
description, likes and comments, the cell shows the entry's own value
whenever that value is truthy (a non-empty string, a non-zero number), and
shows the fallback whenever the field is absent or holds a falsy value
(the empty string, the number 0, false, null). -/
theorem labels_spec (item : VideoEntry) :
    ((item.username.truthy = true → usernameLabel item = item.username)
      ∧ (item.username.truthy = false → usernameLabel item = .string "user_gen"))
    ∧ ((item.description.truthy = true → descriptionLabel item = item.description)
      ∧ (item.description.truthy = false →
          descriptionLabel item = .string "AI Video Magic #viral"))
    ∧ ((item.likes.truthy = true → likesLabel item = item.likes)
      ∧ (item.likes.truthy = false → likesLabel item = .string "12K"))
    ∧ ((item.comments.truthy = true → commentsLabel item = item.comments)
      ∧ (item.comments.truthy = false → commentsLabel item = .string "450"))
    ∧ (∀ v : JsValue, v.truthy = false ↔
        (v = .undefined ∨ v = .null ∨ v = .bool false ∨ v = .number 0 ∨ v = .string ""))
    ∧ (∀ v : JsValue, v.present = false → v.truthy = false) := by
  refine ⟨⟨?_, ?_⟩, ⟨?_, ?_⟩, ⟨?_, ?_⟩, ⟨?_, ?_⟩, JsValue.truthy_eq_false_iff, ?_⟩
  all_goals first
    | (intro h; simp [usernameLabel, descriptionLabel, likesLabel, commentsLabel,
        JsValue.or, h])
    | (intro v h; cases v <;> simp_all [JsValue.present, JsValue.truthy])

/-- C9, amended, at a concrete input: the first mock entry shows its own
four values, and an entry without the four fields shows the four
fallbacks. -/
theorem labels_spec_witness :
    (usernameLabel ⟨"1", "u", .string "ocean_vibe", .string "Relaxing waves", .string "1.2M",
        .string "4K"⟩ = .string "ocean_vibe")
    ∧ (likesLabel ⟨"1", "u", .string "ocean_vibe", .string "Relaxing waves", .string "1.2M",
        .string "4K"⟩ = .string "1.2M")
    ∧ (descriptionLabel ⟨"9", "u", .undefined, .undefined, .undefined, .undefined⟩
        = .string "AI Video Magic #viral")
    ∧ (commentsLabel ⟨"9", "u", .undefined, .undefined, .undefined, .undefined⟩
        = .string "450") :=
  ⟨(labels_spec ⟨"1", "u", .string "ocean_vibe", .string "Relaxing waves", .string "1.2M",
      .string "4K"⟩).1.1 (by decide),
   (labels_spec ⟨"1", "u", .string "ocean_vibe", .string "Relaxing waves", .string "1.2M",
      .string "4K"⟩).2.2.1.1 (by decide),
   (labels_spec ⟨"9", "u", .undefined, .undefined, .undefined, .undefined⟩).2.1.2 rfl,
   (labels_spec ⟨"9", "u", .undefined, .undefined, .undefined, .undefined⟩).2.2.2.1.2 rfl⟩

/-! ## Theorems: the remix dialog -/

/-- C10, counterexample: confirming the dialog on entry "1" with the prompt
"make it blue" emits a console line and no request carrying `videoId` and
`prompt`. -/
theorem remix_no_request :
    ¬ (∀ (s : FeedState) (item : VideoEntry) (prompt : String),
        (remixFlow s item "Remix!" prompt).2 = [Effect.remixRequest item.id prompt]) := by
  intro h
  have h1 := h FeedState.init
    ⟨"1", "https://example.org/v.mp4", .undefined, .undefined, .undefined, .undefined⟩
    "make it blue"
  simp [remixFlow, handleRemixPress, AlertPrompt.press, List.find?] at h1

/-- C10, amended: for every entry and prompt text, confirming the remix
dialog writes exactly one console line that names the entry's id and the
prompt text, and sends no request; choosing "Cancel" emits nothing; the
entries and the active index are the same afterwards in both cases. -/
theorem remixFlow_spec (s : FeedState) (item : VideoEntry) (prompt : String) :
    remixFlow s item "Remix!" prompt
      = (s, [Effect.consoleLog ("Remixing video " ++ item.id ++ " with prompt: " ++ prompt)])
    ∧ remixFlow s item "Cancel" prompt = (s, [])
    ∧ (∀ label, (remixFlow s item label prompt).1 = s)
    ∧ (∀ label, Effect.remixRequest item.id prompt ∉ (remixFlow s item label prompt).2) := by
  refine ⟨?_, ?_, fun _ => rfl, ?_⟩
  · simp [remixFlow, handleRemixPress, AlertPrompt.press, List.find?]
  · simp [remixFlow, handleRemixPress, AlertPrompt.press, List.find?]
  · intro label
    by_cases h1 : ("Cancel" == label) = true
    · simp [remixFlow, handleRemixPress, AlertPrompt.press, List.find?, h1]
    · by_cases h2 : ("Remix!" == label) = true
      · simp [remixFlow, handleRemixPress, AlertPrompt.press, List.find?, h1, h2]
      · simp [remixFlow, handleRemixPress, AlertPrompt.press, List.find?, h1, h2]

/-! ## Theorems: one cell -/

/-- A status report changes neither the player reference nor the memoised
dependency, and issues no command. -/
theorem onPlaybackStatusUpdate_quiet (st : PlaybackStatus) (c : CellState) :
    (onPlaybackStatusUpdate st c).2 = []
    ∧ (onPlaybackStatusUpdate st c).1.videoRef = c.videoRef
    ∧ (onPlaybackStatusUpdate st c).1.deps = c.deps := by
  rcases c with ⟨r, u, _ | b⟩
  · exact ⟨rfl, rfl, rfl⟩
  · simp [onPlaybackStatusUpdate, render]

/-- A render with a new value of `isActive` on a cell whose player is
attached issues the one command for that value and memoises the value. -/
theorem render_changed (active : Bool) (c : CellState)
    (href : c.videoRef = true) (hdeps : c.deps ≠ some active) :
    (render active c).2 = [if active then Command.playAsync else Command.pauseAsync]
    ∧ (render active c).1.videoRef = true
    ∧ (render active c).1.deps = some active := by
  cases active <;> simp [render, effectBody, href, hdeps]

/-- A render with the memoised value of `isActive` does nothing. -/
theorem render_same (active : Bool) (c : CellState) (hdeps : c.deps = some active) :
    render active c = (c, []) := by
  simp [render, hdeps]

theorem CellState.run_append (es fs : List CellEvent) :
    ∀ c : CellState, CellState.run (es ++ fs) c
      = ((CellState.run fs (CellState.run es c).1).1,
         (CellState.run es c).2 ++ (CellState.run fs (CellState.run es c).1).2) := by
  induction es with
  | nil => intro c; simp [CellState.run]
  | cons e es ih => intro c; simp [CellState.run, ih, List.append_assoc]

/-- Status reports alone issue no command and keep the player reference and
the memoised dependency. -/
theorem CellState.run_status (sts : List PlaybackStatus) :
    ∀ c : CellState, (CellState.run (sts.map CellEvent.statusUpdate) c).2 = []
      ∧ (CellState.run (sts.map CellEvent.statusUpdate) c).1.videoRef = c.videoRef
      ∧ (CellState.run (sts.map CellEvent.statusUpdate) c).1.deps = c.deps := by
  induction sts with
  | nil => intro c; exact ⟨rfl, rfl, rfl⟩
  | cons st sts ih =>
    intro c
    have h := onPlaybackStatusUpdate_quiet st c
    have h2 := ih (onPlaybackStatusUpdate st c).1
    simp only [List.map_cons, CellState.run, CellState.step]
    refine ⟨by rw [h.1, h2.1]; rfl, by rw [h2.2.1, h.2.1], by rw [h2.2.2, h.2.2]⟩

/-- C7, counterexample: a cell mounted active while its media is not loaded
is sent `playAsync` at once, and the report that the media is loaded sends
it nothing. -/
theorem play_not_fired_on_ready :
    ¬ (∀ c : CellState, c.videoRef = true → c.deps = some true → c.status.isLoaded = false →
        Command.playAsync ∈ (CellState.step (.statusUpdate ⟨true⟩) c).2) := by
  intro h
  have h1 := h (mount true).1 rfl rfl rfl
  exact absurd h1 (by decide)

/-- C7, amended: for a cell whose `isActive` becomes true, the play command
is issued at that moment whether its media is loaded or not, and the later
report that the media is loaded issues no command and leaves the cell
active. -/
theorem play_immediate (c : CellState) (st : PlaybackStatus)
    (href : c.videoRef = true) (hdeps : c.deps ≠ some true) :
    (CellState.step (.props true) c).2 = [Command.playAsync]
    ∧ (CellState.step (.statusUpdate st) (CellState.step (.props true) c).1).2 = []
    ∧ (CellState.step (.statusUpdate st) (CellState.step (.props true) c).1).1.deps
        = some true := by
  have h := render_changed true c href hdeps
  have h2 := onPlaybackStatusUpdate_quiet st (render true c).1
  refine ⟨by simpa [CellState.step] using h.1, h2.1, ?_⟩
  simp only [CellState.step]
  rw [h2.2.2, h.2.2]

/-- C7, amended, at a concrete input: a cell mounted inactive, not loaded. -/
theorem play_immediate_witness :
    (CellState.step (.props true) (mount false).1).2 = [Command.playAsync]
    ∧ (CellState.step (.statusUpdate ⟨true⟩)
        (CellState.step (.props true) (mount false).1).1).2 = []
    ∧ (CellState.step (.statusUpdate ⟨true⟩)
        (CellState.step (.props true) (mount false).1).1).1.deps = some true :=
  play_immediate (mount false).1 ⟨true⟩ rfl (by decide)

/-- C8, counterexample: a cell mounted inactive whose `isActive` becomes
true and then false before its media is loaded has been sent `playAsync`. -/
theorem play_issued_before_ready :
    ¬ (Command.playAsync ∉
        (CellState.run [.props true, .props false, .statusUpdate ⟨true⟩] (mount false).1).2) := by
  decide

/-- C8, amended: for every cell whose `isActive` becomes true and then false,
with any status reports in between and after, exactly two commands are
issued, `playAsync` when it becomes true and `pauseAsync` when it becomes
false, so the last command is the pause; no command is issued when the
media becomes loaded later. -/
theorem play_then_pause (c : CellState) (before after : List PlaybackStatus)
    (href : c.videoRef = true) (hdeps : c.deps ≠ some true) :
    (CellState.run
        ([.props true] ++ before.map CellEvent.statusUpdate
          ++ [.props false] ++ after.map CellEvent.statusUpdate) c).2
      = [Command.playAsync, Command.pauseAsync] := by
  have h1 := render_changed true c href hdeps
  have h2 := CellState.run_status before (render true c).1
  have h3 := render_changed false (CellState.run (before.map CellEvent.statusUpdate)
    (render true c).1).1 (by rw [h2.2.1, h1.2.1]) (by rw [h2.2.2, h1.2.2]; decide)
  have h4 := CellState.run_status after (render false
    (CellState.run (before.map CellEvent.statusUpdate) (render true c).1).1).1
  have hsingle : ∀ (b : Bool) (d : CellState),
      CellState.run [CellEvent.props b] d = ((render b d).1, (render b d).2 ++ []) :=
    fun _ _ => rfl
  have hsplit : [CellEvent.props true] ++ before.map CellEvent.statusUpdate
        ++ [CellEvent.props false] ++ after.map CellEvent.statusUpdate
      = [CellEvent.props true] ++ (before.map CellEvent.statusUpdate
        ++ ([CellEvent.props false] ++ after.map CellEvent.statusUpdate)) := by
    simp
  rw [hsplit, CellState.run_append, CellState.run_append, CellState.run_append]
  simp only [hsingle, h1.1, h2.1, h3.1, h4.1]
  simp

/-- C8, amended, at a concrete input: a cell mounted inactive, with the
media reported loaded after the pause. -/
theorem play_then_pause_witness :
    (CellState.run
        ([.props true] ++ ([⟨false⟩] : List PlaybackStatus).map CellEvent.statusUpdate
          ++ [.props false] ++ ([⟨true⟩] : List PlaybackStatus).map CellEvent.statusUpdate)
        (mount false).1).2
      = [Command.playAsync, Command.pauseAsync] :=
  play_then_pause (mount false).1 [⟨false⟩] [⟨true⟩] rfl (by decide)

/-! ## Theorems: the screen -/

/-- After a render the memoised dependency is the value rendered, and the
player reference is the one before. -/
theorem render_state (active : Bool) (c : CellState) :
    (render active c).1.deps = some active ∧ (render active c).1.videoRef = c.videoRef := by
  by_cases h : c.deps = some active
  · simp [render, h]
  · simp [render, h]

/-- A second commit under the same feed state changes no cell and issues no
command. -/
theorem commitRows_idem (s : FeedState) (n : Nat) :
    ∀ (i : Nat) (cells : List CellState),
      commitRows s i n (commitRows s i n cells).1 = ((commitRows s i n cells).1, []) := by
  induction n with
  | zero => intro i cells; rfl
  | succ n ih =>
    intro i cells
    cases cells with
    | nil =>
      have h := render_same (isActive s i) (mount (isActive s i)).1
        (render_state (isActive s i) _).1
      simp only [commitRows, h, ih (i + 1) []]
      rfl
    | cons c cs =>
      have h := render_same (isActive s i) (render (isActive s i) c).1
        (render_state (isActive s i) c).1
      simp only [commitRows, h, ih (i + 1) cs]
      rfl

/-- C6: for every screen and every `k`, a second visibility event for row
`k` right after the first leaves the feed state and every cell as they were
after the first and issues no play or pause command to any cell. -/
theorem viewable_twice_idempotent (scr : Screen) (k : Nat) :
    Screen.step (.viewable (some [⟨k⟩])) (Screen.step (.viewable (some [⟨k⟩])) scr).1
      = ((Screen.step (.viewable (some [⟨k⟩])) scr).1, []) := by
  have h := commitRows_idem (FeedState.step (.viewable (some [⟨k⟩])) scr.feed) scr.feed.videos.length
    0 scr.cells
  simp only [Screen.step, FeedState.step, onViewableItemsChanged, setActiveVideoIndex] at h ⊢
  rw [h]

/-- The commands of one settled cell of row `i` when the active index moves
from that of `s` to that of `s2`. -/
theorem render_settled_cmds (s s2 : FeedState) (i : Nat) (c : CellState)
    (hne : s.activeVideoIndex ≠ s2.activeVideoIndex)
    (href : c.videoRef = true) (hdeps : c.deps = some (isActive s i)) :
    (render (isActive s2 i) c).2.map (Prod.mk i)
      = (if i = s.activeVideoIndex then [(s.activeVideoIndex, Command.pauseAsync)] else [])
        ++ (if i = s2.activeVideoIndex then [(s2.activeVideoIndex, Command.playAsync)]
            else []) := by
  by_cases h1 : i = s.activeVideoIndex
  · have h2 : ¬ i = s2.activeVideoIndex := fun h => hne (h1.symm.trans h)
    have h3 : ¬ s2.activeVideoIndex = i := fun h => h2 h.symm
    have h4 : s.activeVideoIndex = i := h1.symm
    simp [render, effectBody, isActive, href, hdeps, h2, h3, h4]
  · have h1b : ¬ s.activeVideoIndex = i := fun h => h1 h.symm
    by_cases h2 : i = s2.activeVideoIndex
    · have h4 : s2.activeVideoIndex = i := h2.symm
      simp [render, effectBody, isActive, href, hdeps, h1, h1b, h4]
    · have h2b : ¬ s2.activeVideoIndex = i := fun h => h2 h.symm
      simp [render, effectBody, isActive, href, hdeps, h1, h1b, h2, h2b]

/-- The commands of the settled cells of rows `i, i+1, ...` when the active
index moves from that of `s` to that of `s2`: one pause from the row that was
active and one play from the row that becomes active, when those rows are
among them. -/
theorem commitRows_settled_perm (s s2 : FeedState)
    (hne : s.activeVideoIndex ≠ s2.activeVideoIndex) :
    ∀ (cells : List CellState) (i : Nat), settledFrom s i cells = true →
      ((commitRows s2 i cells.length cells).2).Perm
        ((if i ≤ s.activeVideoIndex ∧ s.activeVideoIndex < i + cells.length
            then [(s.activeVideoIndex, Command.pauseAsync)] else [])
          ++ (if i ≤ s2.activeVideoIndex ∧ s2.activeVideoIndex < i + cells.length
            then [(s2.activeVideoIndex, Command.playAsync)] else [])) := by
  intro cells
  induction cells with
  | nil =>
    intro i _
    have c1 : ¬ (i ≤ s.activeVideoIndex ∧ s.activeVideoIndex < i + 0) := by omega
    have c2 : ¬ (i ≤ s2.activeVideoIndex ∧ s2.activeVideoIndex < i + 0) := by omega
    simp only [List.length_nil, commitRows, if_neg c1, if_neg c2]
    exact List.Perm.refl _
  | cons c cs ih =>
    intro i hs
    simp only [settledFrom, Bool.and_eq_true, decide_eq_true_eq] at hs
    obtain ⟨⟨href, hdeps⟩, hrest⟩ := hs
    have ih2 := ih (i + 1) hrest
    simp only [List.length_cons, commitRows]
    rw [render_settled_cmds s s2 i c hne href hdeps]
    by_cases h1 : i = s.activeVideoIndex
    · have h2 : ¬ i = s2.activeVideoIndex := fun h => hne (h1.symm.trans h)
      have cA : i ≤ s.activeVideoIndex ∧ s.activeVideoIndex < i + (cs.length + 1) := by omega
      have cA2 : ¬ (i + 1 ≤ s.activeVideoIndex ∧ s.activeVideoIndex < i + 1 + cs.length) := by
        omega
      rw [if_pos h1, if_neg h2, if_pos cA]
      rw [if_neg cA2] at ih2
      by_cases cB : i + 1 ≤ s2.activeVideoIndex ∧ s2.activeVideoIndex < i + 1 + cs.length
      · have cB2 : i ≤ s2.activeVideoIndex ∧ s2.activeVideoIndex < i + (cs.length + 1) := by
          omega
        rw [if_pos cB] at ih2
        rw [if_pos cB2]
        simpa using ih2
      · have cB2 : ¬ (i ≤ s2.activeVideoIndex ∧ s2.activeVideoIndex < i + (cs.length + 1)) := by
          omega
        rw [if_neg cB] at ih2
        rw [if_neg cB2]
        simpa using ih2
    · by_cases h2 : i = s2.activeVideoIndex
      · have cB : i ≤ s2.activeVideoIndex ∧ s2.activeVideoIndex < i + (cs.length + 1) := by
          omega
        have cB2 : ¬ (i + 1 ≤ s2.activeVideoIndex ∧ s2.activeVideoIndex < i + 1 + cs.length) := by
          omega
        rw [if_neg h1, if_pos h2, if_pos cB]
        rw [if_neg cB2] at ih2
        by_cases cA : i + 1 ≤ s.activeVideoIndex ∧ s.activeVideoIndex < i + 1 + cs.length
        · have cA2 : i ≤ s.activeVideoIndex ∧ s.activeVideoIndex < i + (cs.length + 1) := by
            omega
          rw [if_pos cA] at ih2
          rw [if_pos cA2]
          have h3 := List.Perm.cons (s2.activeVideoIndex, Command.playAsync) ih2
          exact h3.trans (List.Perm.swap _ _ _)
        · have cA2 : ¬ (i ≤ s.activeVideoIndex ∧ s.activeVideoIndex < i + (cs.length + 1)) := by
            omega
          rw [if_neg cA] at ih2
          rw [if_neg cA2]
          simpa using ih2
      · rw [if_neg h1, if_neg h2]
        have eA : (i + 1 ≤ s.activeVideoIndex ∧ s.activeVideoIndex < i + 1 + cs.length)
            ↔ (i ≤ s.activeVideoIndex ∧ s.activeVideoIndex < i + (cs.length + 1)) := by omega
        have eB : (i + 1 ≤ s2.activeVideoIndex ∧ s2.activeVideoIndex < i + 1 + cs.length)
            ↔ (i ≤ s2.activeVideoIndex ∧ s2.activeVideoIndex < i + (cs.length + 1)) := by omega
        simp only [eA, eB] at ih2
        simpa using ih2

/-- A commit of settled cells leaves them settled under the new feed state. -/
theorem commitRows_settled (s s2 : FeedState) :
    ∀ (cells : List CellState) (i : Nat), settledFrom s i cells = true →
      settledFrom s2 i (commitRows s2 i cells.length cells).1 = true
      ∧ (commitRows s2 i cells.length cells).1.length = cells.length := by
  intro cells
  induction cells with
  | nil => intro i _; exact ⟨rfl, rfl⟩
  | cons c cs ih =>
    intro i hs
    simp only [settledFrom, Bool.and_eq_true, decide_eq_true_eq] at hs
    obtain ⟨⟨href, _⟩, hrest⟩ := hs
    have h := render_state (isActive s2 i) c
    have h2 := ih (i + 1) hrest
    simp only [List.length_cons, commitRows, settledFrom, Bool.and_eq_true, decide_eq_true_eq]
    exact ⟨⟨⟨by rw [h.2, href], h.1⟩, h2.1⟩, by rw [h2.2]⟩

/-- C5: on a settled screen whose active row `j` and another row `k` are
both rows of the feed, the visibility event for row `k` makes `k` the active
index and issues exactly two commands, `pauseAsync` to the cell of row `j`
and `playAsync` to the cell of row `k`; no other cell receives a command. -/
theorem scroll_commands (scr : Screen) (k : Nat)
    (hsettled : scr.settled = true)
    (hj : scr.feed.activeVideoIndex < scr.feed.videos.length)
    (hk : k < scr.feed.videos.length)
    (hjk : scr.feed.activeVideoIndex ≠ k) :
    (Screen.step (.viewable (some [⟨k⟩])) scr).1.feed.activeVideoIndex = k
    ∧ (Screen.step (.viewable (some [⟨k⟩])) scr).1.feed.videos = scr.feed.videos
    ∧ ((Screen.step (.viewable (some [⟨k⟩])) scr).2).Perm
        [(scr.feed.activeVideoIndex, Command.pauseAsync), (k, Command.playAsync)]
    ∧ (∀ i cmd, (i, cmd) ∈ (Screen.step (.viewable (some [⟨k⟩])) scr).2 →
        i = scr.feed.activeVideoIndex ∨ i = k)
    ∧ (Screen.step (.viewable (some [⟨k⟩])) scr).1.settled = true := by
  simp only [Screen.settled, Bool.and_eq_true, decide_eq_true_eq] at hsettled
  obtain ⟨hlen, hset⟩ := hsettled
  have hperm : ((Screen.step (.viewable (some [⟨k⟩])) scr).2).Perm
      [(scr.feed.activeVideoIndex, Command.pauseAsync), (k, Command.playAsync)] := by
    have h := commitRows_settled_perm scr.feed ⟨scr.feed.videos, k⟩ hjk scr.cells 0 hset
    have c1 : 0 ≤ scr.feed.activeVideoIndex ∧ scr.feed.activeVideoIndex < 0 + scr.cells.length := by
      omega
    have c2 : 0 ≤ k ∧ k < 0 + scr.cells.length := by omega
    rw [if_pos c1, if_pos c2, hlen] at h
    exact h
  refine ⟨rfl, rfl, hperm, ?_, ?_⟩
  · intro i cmd hmem
    have hmem2 := hperm.subset hmem
    simp only [List.mem_cons, Prod.mk.injEq, List.mem_nil_iff, or_false] at hmem2
    rcases hmem2 with h | h
    · exact Or.inl h.1
    · exact Or.inr h.1
  · have h := commitRows_settled scr.feed ⟨scr.feed.videos, k⟩ scr.cells 0 hset
    simp only [Screen.settled, Screen.step, FeedState.step, onViewableItemsChanged,
      setActiveVideoIndex, Bool.and_eq_true, decide_eq_true_eq]
    rw [← hlen]
    exact ⟨by rw [h.2], h.1⟩

/-- C5 at a concrete input: the two mock entries with row 0 active, and
row 1 becoming visible. -/
theorem scroll_commands_witness :
    (Screen.step (.viewable (some [⟨1⟩])) (Screen.step .load Screen.init).1).1.feed.activeVideoIndex
      = 1
    ∧ ((Screen.step (.viewable (some [⟨1⟩])) (Screen.step .load Screen.init).1).2).Perm
        [(0, Command.pauseAsync), (1, Command.playAsync)] :=
  have h := scroll_commands (Screen.step .load Screen.init).1 1
    (by decide) (by decide) (by decide) (by decide)
  ⟨h.1, h.2.2.1⟩

/-- A commit of cells whose players are attached gives one settled cell per
row, each with its player attached. -/
theorem commitRows_settles (s : FeedState) (n : Nat) :
    ∀ (i : Nat) (cells : List CellState), (∀ c ∈ cells, c.videoRef = true) →
      settledFrom s i (commitRows s i n cells).1 = true
      ∧ (commitRows s i n cells).1.length = n
      ∧ (∀ c ∈ (commitRows s i n cells).1, c.videoRef = true) := by
  induction n with
  | zero => intro i cells _; exact ⟨rfl, rfl, fun _ h => absurd h (List.not_mem_nil _)⟩
  | succ n ih =>
    intro i cells hall
    cases cells with
    | nil =>
      have h := render_state (isActive s i) ⟨true, CellState.init.status, CellState.init.deps⟩
      have h2 := ih (i + 1) [] (fun _ hc => absurd hc (List.not_mem_nil _))
      simp only [commitRows, settledFrom, Bool.and_eq_true, decide_eq_true_eq, List.length_cons,
        List.mem_cons, mount]
      refine ⟨⟨⟨h.2, h.1⟩, h2.1⟩, by rw [h2.2.1], ?_⟩
      rintro c (rfl | hc)
      · exact h.2
      · exact h2.2.2 c hc
    | cons c cs =>
      have h := render_state (isActive s i) c
      have hc : c.videoRef = true := hall c (List.mem_cons_self _ _)
      have h2 := ih (i + 1) cs (fun d hd => hall d (List.mem_cons_of_mem _ hd))
      simp only [commitRows, settledFrom, Bool.and_eq_true, decide_eq_true_eq, List.length_cons,
        List.mem_cons]
      refine ⟨⟨⟨by rw [h.2, hc], h.1⟩, h2.1⟩, by rw [h2.2.1], ?_⟩
      rintro d (rfl | hd)
      · rw [h.2, hc]
      · exact h2.2.2 d hd

/-- Every screen reached from the screen on mount is settled, with all its
players attached. -/
theorem Screen.run_settled (evs : List FeedEvent) :
    ∀ scr : Screen, (∀ c ∈ scr.cells, c.videoRef = true) → scr.settled = true →
      (Screen.run evs scr).1.settled = true := by
  induction evs with
  | nil => intro scr _ h; exact h
  | cons e es ih =>
    intro scr hall _
    have h := commitRows_settles (FeedState.step e scr.feed)
      (FeedState.step e scr.feed).videos.length 0 scr.cells hall
    refine ih (Screen.step e scr).1 h.2.2 ?_
    simp only [Screen.settled, Screen.step, Bool.and_eq_true, decide_eq_true_eq]
    exact ⟨h.2.1, h.1⟩

end NeoSocial
